import Mathlib

/-!
Verification of the Pythnet price-account core
(`program/rust/src/accounts/price.rs`): the price account record, the
cumulative-statistics fold-in, the two message-derivation methods, and the
three big-endian wire serializers.

Machine integers are embedded as `Int`/`Nat`; where the Rust code performs
fixed-width arithmetic that can wrap, the embedding applies an explicit
reduction modulo `2 ^ w` (two's complement for signed widths).  Rust's
`saturating_sub` on unsigned integers coincides with truncated `Nat`
subtraction.
-/

set_option maxRecDepth 100000

namespace PythPrice

/-- Big-endian byte string of `n` at a width of `w` bytes, most significant
byte first; only the low `8 * w` bits of `n` contribute, exactly as
`to_be_bytes` on a `w`-byte machine integer. -/
def beBytes : Nat → Nat → List Nat
  | 0, _ => []
  | w + 1, n => beBytes w (n / 256) ++ [n % 256]

/-- Reinterpretation of an integer as an unsigned `w`-bit value
(two's complement), the embedding of Rust's `as uN` casts. -/
def toUnsigned (w : Nat) (z : Int) : Nat := (z % ((2 : Int) ^ w)).toNat

/-- Wrap of an integer into the signed two's-complement range of 128 bits,
the embedding of `i128` arithmetic results. -/
def i128wrap (z : Int) : Int := (z + 2 ^ 127) % 2 ^ 128 - 2 ^ 127

/-- Modelled from the spec: `PC_STATUS_TRADING` comes from `c_oracle_header`,
which is not under `src/`; the spec's status enumeration
`{Unknown, Trading, Halted, Auction, Ignored}` places `Trading` at value 1.
No claim below depends on the concrete value. -/
def PC_STATUS_TRADING : Nat := 1

/-- Modelled from the spec: `PC_MAX_SEND_LATENCY` (the spec's
`DEFAULT_MAX_LATENCY` fallback constant) comes from `c_oracle_header`, which
is not under `src/`; it is fixed here at 25 slots.  No claim below depends on
the concrete value. -/
def PC_MAX_SEND_LATENCY : Nat := 25

/-- A Solana public key, kept as its 32-byte representation. -/
abbrev Pubkey : Type := List Nat

/-- Embedding of `Pubkey::to_bytes`. -/
def Pubkey.to_bytes (k : Pubkey) : List Nat := k

/-- Modelled from the spec: the account header (type tag + size), declared
outside `src/`; the spec marks it out of scope for the arithmetic and it is
only carried along unchanged. -/
structure AccountHeader where
  magic_ : Nat
  version_ : Nat
  account_type_ : Nat
  size_ : Nat
deriving DecidableEq

/-- Embedding of `PriceInfo`: a price/confidence/status tuple with the
originating slot. -/
structure PriceInfo where
  price_ : Int
  conf_ : Nat
  status_ : Nat
  corp_act_status_ : Nat
  pub_slot_ : Nat
deriving DecidableEq

/-- Embedding of `PriceComponent`: one publisher slot. -/
structure PriceComponent where
  pub_ : Pubkey
  agg_ : PriceInfo
  latest_ : PriceInfo
deriving DecidableEq

/-- Embedding of `PriceEma`: the exponential-moving-average accumulator. -/
structure PriceEma where
  val_ : Int
  numer_ : Int
  denom_ : Int
deriving DecidableEq

/-- Embedding of the `bitflags` struct `PriceAccountFlags` as its raw `u8`. -/
structure PriceAccountFlags where
  bits : Nat
deriving DecidableEq

/-- Embedding of `PriceCumulative`: running sums used to compute TWAP and
downtime. -/
structure PriceCumulative where
  price : Int
  conf : Nat
  num_down_slots : Nat
  unused : Nat
deriving DecidableEq

/-- The zero-initialized `PriceCumulative` (the `Zeroable` instance / freshly
created account state). -/
def PriceCumulative.zero : PriceCumulative :=
  { price := 0, conf := 0, num_down_slots := 0, unused := 0 }

/-- Embedding of `PriceAccountPythnet`, field for field in declaration
order. -/
structure PriceAccountPythnet where
  header : AccountHeader
  price_type : Nat
  exponent : Int
  num_ : Nat
  num_qt_ : Nat
  last_slot_ : Nat
  valid_slot_ : Nat
  twap_ : PriceEma
  twac_ : PriceEma
  timestamp_ : Int
  min_pub_ : Nat
  message_sent_ : Nat
  max_latency_ : Nat
  flags : PriceAccountFlags
  feed_index : Nat
  product_account : Pubkey
  next_price_account : Pubkey
  prev_slot_ : Nat
  prev_price_ : Int
  prev_conf_ : Nat
  prev_timestamp_ : Int
  agg_ : PriceInfo
  comp_ : List PriceComponent
  price_cumulative : PriceCumulative
deriving DecidableEq

/-- Embedding of `PriceCumulative::update`.  The `i128`/`u128`/`u64`
additions are embedded with explicit wrapping at their widths;
`slot_gap.saturating_sub latency` is `Nat` subtraction. -/
def PriceCumulative.update (c : PriceCumulative) (price : Int)
    (conf slot_gap max_latency : Nat) : PriceCumulative :=
  let latency : Nat := if max_latency = 0 then PC_MAX_SEND_LATENCY else max_latency
  { price := i128wrap (c.price + i128wrap (price * (slot_gap : Int)))
    conf := (c.conf + (conf * slot_gap) % 2 ^ 128) % 2 ^ 128
    num_down_slots := (c.num_down_slots + (slot_gap - latency)) % 2 ^ 64
    unused := c.unused }

/-- Embedding of `PriceAccountPythnet::update_price_cumulative`;
`pub_slot_.saturating_sub prev_slot_` is `Nat` subtraction. -/
def PriceAccountPythnet.update_price_cumulative (a : PriceAccountPythnet) :
    PriceAccountPythnet :=
  if a.agg_.status_ = PC_STATUS_TRADING then
    let c := a.price_cumulative.update a.agg_.price_ a.agg_.conf_
      (a.agg_.pub_slot_ - a.prev_slot_) a.max_latency_
    { a with price_cumulative := c }
  else
    a

/-- Embedding of `PriceFeedMessage` from `pythnet_sdk`, with exactly the
fields the serializer and constructor in `price.rs` use. -/
structure PriceFeedMessage where
  feed_id : List Nat
  price : Int
  conf : Nat
  exponent : Int
  publish_time : Int
  prev_publish_time : Int
  ema_price : Int
  ema_conf : Nat
deriving DecidableEq

/-- Embedding of `TwapMessage` from `pythnet_sdk`. -/
structure TwapMessage where
  feed_id : List Nat
  cumulative_price : Int
  cumulative_conf : Nat
  num_down_slots : Nat
  exponent : Int
  publish_time : Int
  prev_publish_time : Int
  publish_slot : Nat
deriving DecidableEq

/-- One entry of a `PublisherStakeCapsMessage`: a 32-byte publisher key and
its cap. -/
structure StakeCap where
  publisher : List Nat
  cap : Nat
deriving DecidableEq

/-- Embedding of `PublisherStakeCapsMessage` from `pythnet_sdk`. -/
structure PublisherStakeCapsMessage where
  publish_time : Int
  caps : List StakeCap
deriving DecidableEq

/-- Embedding of `PriceAccountPythnet::as_price_feed_message`. -/
def PriceAccountPythnet.as_price_feed_message (a : PriceAccountPythnet)
    (key : Pubkey) : PriceFeedMessage :=
  let sel : Int × Nat × Int :=
    if a.agg_.status_ = PC_STATUS_TRADING then
      (a.agg_.price_, a.agg_.conf_, a.timestamp_)
    else
      (a.prev_price_, a.prev_conf_, a.prev_timestamp_)
  { feed_id := key.to_bytes
    price := sel.1
    conf := sel.2.1
    exponent := a.exponent
    publish_time := sel.2.2
    prev_publish_time := a.prev_timestamp_
    ema_price := a.twap_.val_
    ema_conf := toUnsigned 64 a.twac_.val_ }

/-- Embedding of `PriceAccountPythnet::as_twap_message`. -/
def PriceAccountPythnet.as_twap_message (a : PriceAccountPythnet)
    (key : Pubkey) : TwapMessage :=
  let publish_time : Int :=
    if a.agg_.status_ = PC_STATUS_TRADING then a.timestamp_ else a.prev_timestamp_
  { feed_id := key.to_bytes
    cumulative_price := a.price_cumulative.price
    cumulative_conf := a.price_cumulative.conf
    num_down_slots := a.price_cumulative.num_down_slots
    exponent := a.exponent
    publish_time := publish_time
    prev_publish_time := a.prev_timestamp_
    publish_slot := a.last_slot_ }

/-- Embedding of `PythOracleSerialize for PriceFeedMessage::to_bytes`: the
code fills a fixed 81-byte buffer at consecutive offsets, which is the
concatenation below (`clone_from_slice` requires `feed_id` to occupy exactly
32 bytes, which its Rust type `[u8; 32]` guarantees). -/
def PriceFeedMessage.to_bytes (m : PriceFeedMessage) : List Nat :=
  [0] ++ m.feed_id
    ++ beBytes 8 (toUnsigned 64 m.price)
    ++ beBytes 8 m.conf
    ++ beBytes 4 (toUnsigned 32 m.exponent)
    ++ beBytes 8 (toUnsigned 64 m.publish_time)
    ++ beBytes 8 (toUnsigned 64 m.prev_publish_time)
    ++ beBytes 8 (toUnsigned 64 m.ema_price)
    ++ beBytes 8 m.ema_conf

/-- Embedding of `PythOracleSerialize for TwapMessage::to_bytes`. -/
def TwapMessage.to_bytes (m : TwapMessage) : List Nat :=
  [1] ++ m.feed_id
    ++ beBytes 16 (toUnsigned 128 m.cumulative_price)
    ++ beBytes 16 m.cumulative_conf
    ++ beBytes 8 m.num_down_slots
    ++ beBytes 4 (toUnsigned 32 m.exponent)
    ++ beBytes 8 (toUnsigned 64 m.publish_time)
    ++ beBytes 8 (toUnsigned 64 m.prev_publish_time)
    ++ beBytes 8 m.publish_slot

/-- Embedding of `PythOracleSerialize for PublisherStakeCapsMessage::to_bytes`:
`u16::try_from(len).unwrap_or(u16::MAX)` is `min len 65535`, and the loop
appends every entry regardless of the count prefix. -/
def PublisherStakeCapsMessage.to_bytes (m : PublisherStakeCapsMessage) :
    List Nat :=
  [2] ++ beBytes 8 (toUnsigned 64 m.publish_time)
    ++ beBytes 2 (min m.caps.length 65535)
    ++ m.caps.flatMap (fun c => c.publisher ++ beBytes 8 c.cap)

/-! ### Arithmetic helper lemmas -/

theorem i128wrap_eq_self {z : Int} (h1 : -(2 ^ 127) ≤ z) (h2 : z < 2 ^ 127) :
    i128wrap z = z := by
  have e1 : (2 : Int) ^ 127 = 170141183460469231731687303715884105728 := by norm_num
  have e2 : (2 : Int) ^ 128 = 340282366920938463463374607431768211456 := by norm_num
  simp only [i128wrap, e1, e2] at *
  omega

theorem mul_gap_lower {p g : Int} (hp1 : -(2 ^ 63) ≤ p) (hg0 : 0 ≤ g)
    (hg : g < 2 ^ 64) : -(2 ^ 127) ≤ p * g := by
  have h1 : (-(2 ^ 63)) * g ≤ p * g := mul_le_mul_of_nonneg_right hp1 hg0
  have h2 : (-(2 ^ 63) : Int) * (2 ^ 64) ≤ (-(2 ^ 63)) * g :=
    mul_le_mul_of_nonpos_left (le_of_lt hg) (by norm_num)
  have h3 : (-(2 ^ 127) : Int) = (-(2 ^ 63)) * 2 ^ 64 := by norm_num
  linarith

theorem mul_gap_upper {p g : Int} (hp2 : p < 2 ^ 63) (hg0 : 0 ≤ g)
    (hg : g < 2 ^ 64) : p * g < 2 ^ 127 := by
  rcases le_or_lt p 0 with hneg | hpos
  · have h0 : p * g ≤ 0 := mul_nonpos_of_nonpos_of_nonneg hneg hg0
    have : (0 : Int) < 2 ^ 127 := by positivity
    linarith
  · have hb : p ≤ 2 ^ 63 - 1 := by
      have := Int.lt_iff_add_one_le.mp hp2
      linarith
    have hg' : g ≤ 2 ^ 64 - 1 := by
      have := Int.lt_iff_add_one_le.mp hg
      linarith
    have hmul : p * g ≤ (2 ^ 63 - 1) * (2 ^ 64 - 1) :=
      mul_le_mul hb hg' hg0 (by norm_num)
    have hfin : ((2 : Int) ^ 63 - 1) * (2 ^ 64 - 1) < 2 ^ 127 := by norm_num
    linarith

/-- Under machine-range bounds on the arguments, the inner `i128`
multiplication and `u128` multiplication in `PriceCumulative.update` never
wrap, so the update is the plain accumulator addition (still reduced at the
accumulator widths). -/
theorem PriceCumulative.update_eq (c : PriceCumulative) (p : Int)
    (cf g ml : Nat) (hp1 : -(2 ^ 63) ≤ p) (hp2 : p < 2 ^ 63)
    (hcf : cf < 2 ^ 64) (hg : g < 2 ^ 64) :
    c.update p cf g ml =
      ⟨i128wrap (c.price + p * (g : Int)),
       (c.conf + cf * g) % 2 ^ 128,
       (c.num_down_slots + (g - (if ml = 0 then PC_MAX_SEND_LATENCY else ml))) % 2 ^ 64,
       c.unused⟩ := by
  have hg0 : (0 : Int) ≤ (g : Int) := Int.natCast_nonneg g
  have hgi : ((g : Nat) : Int) < 2 ^ 64 := by exact_mod_cast hg
  have hconf : cf * g < 2 ^ 128 := by
    have h := Nat.mul_lt_mul'' hcf hg
    calc cf * g < 2 ^ 64 * 2 ^ 64 := h
    _ = 2 ^ 128 := by norm_num
  simp only [PriceCumulative.update]
  congr 1
  · rw [i128wrap_eq_self (mul_gap_lower hp1 hg0 hgi) (mul_gap_upper hp2 hg0 hgi)]
  · rw [Nat.mod_eq_of_lt hconf]

/-- A zero slot gap makes `PriceCumulative.update` the identity, provided the
accumulator fields are within their machine ranges. -/
theorem PriceCumulative.update_zero_gap (c : PriceCumulative) (p : Int)
    (cf ml : Nat) (h1 : -(2 ^ 127) ≤ c.price) (h2 : c.price < 2 ^ 127)
    (h3 : c.conf < 2 ^ 128) (h4 : c.num_down_slots < 2 ^ 64) :
    c.update p cf 0 ml = c := by
  have hz : i128wrap 0 = 0 := by norm_num [i128wrap]
  simp only [PriceCumulative.update, Nat.mul_zero, Nat.zero_sub,
    Nat.zero_mod, Nat.add_zero, add_zero, Nat.cast_zero, mul_zero, hz]
  rw [i128wrap_eq_self h1 h2, Nat.mod_eq_of_lt h3, Nat.mod_eq_of_lt h4]

/-! ### Sample data for concrete instantiations -/

/-- A concrete, fully populated account whose latest aggregation attempt
succeeded (`agg_.status_ = PC_STATUS_TRADING`). -/
def sampleAccount : PriceAccountPythnet :=
  { header := { magic_ := 2712847316, version_ := 2, account_type_ := 3, size_ := 3312 }
    price_type := 1
    exponent := -8
    num_ := 2
    num_qt_ := 2
    last_slot_ := 1000
    valid_slot_ := 999
    twap_ := { val_ := 50, numer_ := 1, denom_ := 2 }
    twac_ := { val_ := -3, numer_ := 1, denom_ := 2 }
    timestamp_ := 1700000000
    min_pub_ := 1
    message_sent_ := 0
    max_latency_ := 0
    flags := { bits := 0 }
    feed_index := 7
    product_account := List.replicate 32 1
    next_price_account := List.replicate 32 2
    prev_slot_ := 990
    prev_price_ := 95
    prev_conf_ := 4
    prev_timestamp_ := 1699999990
    agg_ := { price_ := 100, conf_ := 5, status_ := PC_STATUS_TRADING,
              corp_act_status_ := 0, pub_slot_ := 1000 }
    comp_ := []
    price_cumulative := { price := 1234, conf := 56, num_down_slots := 3, unused := 0 } }

/-- `sampleAccount` with a halted latest aggregation attempt. -/
def haltedAccount : PriceAccountPythnet :=
  { sampleAccount with
    agg_ := { price_ := 100, conf_ := 5, status_ := 2, corp_act_status_ := 0,
              pub_slot_ := 1000 } }

/-- `sampleAccount` with a trading aggregate whose publish slot precedes the
previous successful slot. -/
def outOfOrderAccount : PriceAccountPythnet :=
  { sampleAccount with
    agg_ := { price_ := 100, conf_ := 5, status_ := PC_STATUS_TRADING,
              corp_act_status_ := 0, pub_slot_ := 985 } }

/-! ### Claim theorems -/

/-- C1: for every account whose `agg_.status_` equals `PC_STATUS_TRADING`
(with its `agg_` fields in their `i64`/`u64` machine ranges),
`update_price_cumulative` mutates only the `price_cumulative` block, adding
`i128 agg_.price_ * i128 gap` to `price_cumulative.price` and
`u128 agg_.conf_ * u128 gap` to `price_cumulative.conf`, where
`gap = agg_.pub_slot_.saturating_sub prev_slot_`; it then resolves
`latency = (if max_latency_ = 0 then PC_MAX_SEND_LATENCY else max_latency_)`
and adds `gap.saturating_sub latency` to `price_cumulative.num_down_slots`
(each addition being the fixed-width accumulator addition). -/
theorem update_price_cumulative_trading_spec (a : PriceAccountPythnet)
    (hs : a.agg_.status_ = PC_STATUS_TRADING)
    (hp1 : -(2 ^ 63) ≤ a.agg_.price_) (hp2 : a.agg_.price_ < 2 ^ 63)
    (hcf : a.agg_.conf_ < 2 ^ 64) (hg : a.agg_.pub_slot_ < 2 ^ 64) :
    a.update_price_cumulative =
      { a with price_cumulative :=
          ⟨i128wrap (a.price_cumulative.price +
              a.agg_.price_ * ((a.agg_.pub_slot_ - a.prev_slot_ : Nat) : Int)),
           (a.price_cumulative.conf +
              a.agg_.conf_ * (a.agg_.pub_slot_ - a.prev_slot_)) % 2 ^ 128,
           (a.price_cumulative.num_down_slots +
              ((a.agg_.pub_slot_ - a.prev_slot_) -
                (if a.max_latency_ = 0 then PC_MAX_SEND_LATENCY else a.max_latency_))) % 2 ^ 64,
           a.price_cumulative.unused⟩ } := by
  have hgap : a.agg_.pub_slot_ - a.prev_slot_ < 2 ^ 64 :=
    lt_of_le_of_lt (Nat.sub_le _ _) hg
  simp only [PriceAccountPythnet.update_price_cumulative, hs, if_pos,
    PriceCumulative.update_eq a.price_cumulative a.agg_.price_ a.agg_.conf_
      (a.agg_.pub_slot_ - a.prev_slot_) a.max_latency_ hp1 hp2 hcf hgap]

/-- C1 witness: the theorem instantiated at `sampleAccount`. -/
theorem update_price_cumulative_trading_spec_witness :
    sampleAccount.update_price_cumulative =
      { sampleAccount with price_cumulative :=
          ⟨i128wrap (sampleAccount.price_cumulative.price +
              sampleAccount.agg_.price_ *
                ((sampleAccount.agg_.pub_slot_ - sampleAccount.prev_slot_ : Nat) : Int)),
           (sampleAccount.price_cumulative.conf +
              sampleAccount.agg_.conf_ *
                (sampleAccount.agg_.pub_slot_ - sampleAccount.prev_slot_)) % 2 ^ 128,
           (sampleAccount.price_cumulative.num_down_slots +
              ((sampleAccount.agg_.pub_slot_ - sampleAccount.prev_slot_) -
                (if sampleAccount.max_latency_ = 0 then PC_MAX_SEND_LATENCY
                 else sampleAccount.max_latency_))) % 2 ^ 64,
           sampleAccount.price_cumulative.unused⟩ } :=
  update_price_cumulative_trading_spec sampleAccount (by decide) (by decide)
    (by decide) (by decide) (by decide)

/-- C2: `update_price_cumulative` folds the current observation into the
cumulative statistics if and only if `agg_.status_` equals
`PC_STATUS_TRADING`; when the status differs, the call returns the account
unchanged, every field (and in particular the `PriceCumulative` block)
equal to what it was before. -/
theorem update_price_cumulative_iff_trading (a : PriceAccountPythnet) :
    (a.agg_.status_ ≠ PC_STATUS_TRADING → a.update_price_cumulative = a) ∧
    (a.agg_.status_ = PC_STATUS_TRADING →
      a.update_price_cumulative =
        { a with price_cumulative := a.price_cumulative.update a.agg_.price_ a.agg_.conf_ (a.agg_.pub_slot_ - a.prev_slot_) a.max_latency_ }) := by
  constructor <;> intro h <;>
    simp [PriceAccountPythnet.update_price_cumulative, h]

/-- C2 witness: with a halted status the call leaves the account unchanged,
and at `sampleAccount` (trading status) it performs the fold-in. -/
theorem update_price_cumulative_iff_trading_witness :
    haltedAccount.update_price_cumulative = haltedAccount ∧
    sampleAccount.update_price_cumulative =
      { sampleAccount with price_cumulative := sampleAccount.price_cumulative.update sampleAccount.agg_.price_ sampleAccount.agg_.conf_ (sampleAccount.agg_.pub_slot_ - sampleAccount.prev_slot_) sampleAccount.max_latency_ } :=
  ⟨(update_price_cumulative_iff_trading haltedAccount).1 (by decide),
   (update_price_cumulative_iff_trading sampleAccount).2 (by decide)⟩

/-- C3: for every account and key, `as_price_feed_message` reports
`(agg_.price_, agg_.conf_, timestamp_)` when the status is trading and the
`prev*` snapshot otherwise, always with `prev_publish_time = prev_timestamp_`,
`ema_price = twap_.val_` and `ema_conf = twac_.val_` reinterpreted as an
unsigned 64-bit value. -/
theorem as_price_feed_message_spec (a : PriceAccountPythnet) (key : Pubkey) :
    a.as_price_feed_message key =
      { feed_id := key.to_bytes
        price := if a.agg_.status_ = PC_STATUS_TRADING then a.agg_.price_ else a.prev_price_
        conf := if a.agg_.status_ = PC_STATUS_TRADING then a.agg_.conf_ else a.prev_conf_
        exponent := a.exponent
        publish_time := if a.agg_.status_ = PC_STATUS_TRADING then a.timestamp_ else a.prev_timestamp_
        prev_publish_time := a.prev_timestamp_
        ema_price := a.twap_.val_
        ema_conf := toUnsigned 64 a.twac_.val_ } := by
  by_cases h : a.agg_.status_ = PC_STATUS_TRADING <;>
    simp [PriceAccountPythnet.as_price_feed_message, h]

/-- C4: for every account and key, `as_twap_message` takes `publish_time`
from `timestamp_` when the status is trading and from `prev_timestamp_`
otherwise, while the cumulative fields always come from the current
`price_cumulative` block and `publish_slot` is always `last_slot_`. -/
theorem as_twap_message_spec (a : PriceAccountPythnet) (key : Pubkey) :
    a.as_twap_message key =
      { feed_id := key.to_bytes
        cumulative_price := a.price_cumulative.price
        cumulative_conf := a.price_cumulative.conf
        num_down_slots := a.price_cumulative.num_down_slots
        exponent := a.exponent
        publish_time := if a.agg_.status_ = PC_STATUS_TRADING then a.timestamp_ else a.prev_timestamp_
        prev_publish_time := a.prev_timestamp_
        publish_slot := a.last_slot_ } := by
  by_cases h : a.agg_.status_ = PC_STATUS_TRADING <;>
    simp [PriceAccountPythnet.as_twap_message, h]

/-- C9: with a trading status and `agg_.pub_slot_ < prev_slot_`, the slot gap
saturates to zero, and (for an account whose accumulator fields are within
their machine ranges) `update_price_cumulative` leaves the account — in
particular `price_cumulative.price`, `.conf` and `.num_down_slots` —
unchanged. -/
theorem update_price_cumulative_out_of_order (a : PriceAccountPythnet)
    (hs : a.agg_.status_ = PC_STATUS_TRADING)
    (hlt : a.agg_.pub_slot_ < a.prev_slot_)
    (h1 : -(2 ^ 127) ≤ a.price_cumulative.price)
    (h2 : a.price_cumulative.price < 2 ^ 127)
    (h3 : a.price_cumulative.conf < 2 ^ 128)
    (h4 : a.price_cumulative.num_down_slots < 2 ^ 64) :
    a.update_price_cumulative = a := by
  have hz : a.agg_.pub_slot_ - a.prev_slot_ = 0 :=
    Nat.sub_eq_zero_of_le (le_of_lt hlt)
  simp [PriceAccountPythnet.update_price_cumulative, hs, hz,
    PriceCumulative.update_zero_gap a.price_cumulative a.agg_.price_
      a.agg_.conf_ a.max_latency_ h1 h2 h3 h4]

/-- C9 witness: the theorem instantiated at `outOfOrderAccount`. -/
theorem update_price_cumulative_out_of_order_witness :
    outOfOrderAccount.update_price_cumulative = outOfOrderAccount :=
  update_price_cumulative_out_of_order outOfOrderAccount (by decide) (by decide)
    (by decide) (by decide) (by decide) (by decide)

/-! ### Wire-encoding lemmas -/

theorem beBytes_length (w n : Nat) : (beBytes w n).length = w := by
  induction w generalizing n with
  | zero => rfl
  | succ w ih => simp [beBytes, ih]

theorem capsEntries_length (l : List StakeCap)
    (h : ∀ c ∈ l, c.publisher.length = 32) :
    (l.flatMap (fun c => c.publisher ++ beBytes 8 c.cap)).length =
      40 * l.length := by
  induction l with
  | nil => rfl
  | cons c t ih =>
    have hc : c.publisher.length = 32 := h c (by simp)
    have ht : ∀ x ∈ t, x.publisher.length = 32 := fun x hx => h x (by simp [hx])
    simp only [List.flatMap_cons, List.length_append, List.length_cons, hc,
      beBytes_length, ih ht]
    omega

/-- The concrete FeedUpdate message of the spec's round-trip test. -/
def samplePriceFeedMessage : PriceFeedMessage :=
  { feed_id := List.replicate 32 0, price := 1, conf := 2, exponent := -5,
    publish_time := 100, prev_publish_time := 90, ema_price := 3, ema_conf := 4 }

/-- A concrete TwapMessage with a negative cumulative price. -/
def sampleTwapMessage : TwapMessage :=
  { feed_id := List.replicate 32 0, cumulative_price := -7,
    cumulative_conf := 11, num_down_slots := 13, exponent := -5,
    publish_time := 100, prev_publish_time := 90, publish_slot := 1000 }

/-- A concrete stake-caps message with a single entry. -/
def sampleStakeCapsMessage : PublisherStakeCapsMessage :=
  { publish_time := 100, caps := [{ publisher := List.replicate 32 9, cap := 17 }] }

/-- C6 counterexample: on the spec's own concrete example the encoding has
85 bytes, not 81 — the claimed field list `1+32+8+8+4+8+8+8+8` sums to 85. -/
theorem price_feed_message_length_counterexample :
    samplePriceFeedMessage.to_bytes.length = 85 ∧
    samplePriceFeedMessage.to_bytes.length ≠ 81 := by decide

/-- C6 (amended): `PriceFeedMessage.to_bytes` produces exactly 85 bytes —
discriminator byte 0, the 32-byte feed id, then price, conf, exponent,
publish_time, prev_publish_time, ema_price and ema_conf, each big-endian at
its natural width with no padding; and on the spec's concrete example the
output is the stated byte sequence (of 85 bytes). -/
theorem price_feed_message_to_bytes_spec :
    (∀ m : PriceFeedMessage, m.feed_id.length = 32 →
      m.to_bytes.length = 85 ∧
      m.to_bytes = [0] ++ m.feed_id
        ++ beBytes 8 (toUnsigned 64 m.price) ++ beBytes 8 m.conf
        ++ beBytes 4 (toUnsigned 32 m.exponent)
        ++ beBytes 8 (toUnsigned 64 m.publish_time)
        ++ beBytes 8 (toUnsigned 64 m.prev_publish_time)
        ++ beBytes 8 (toUnsigned 64 m.ema_price) ++ beBytes 8 m.ema_conf) ∧
    samplePriceFeedMessage.to_bytes =
      [0] ++ List.replicate 32 0
        ++ [0, 0, 0, 0, 0, 0, 0, 1] ++ [0, 0, 0, 0, 0, 0, 0, 2]
        ++ [255, 255, 255, 251] ++ [0, 0, 0, 0, 0, 0, 0, 100]
        ++ [0, 0, 0, 0, 0, 0, 0, 90] ++ [0, 0, 0, 0, 0, 0, 0, 3]
        ++ [0, 0, 0, 0, 0, 0, 0, 4] := by
  constructor
  · intro m hm
    refine ⟨?_, rfl⟩
    simp [PriceFeedMessage.to_bytes, beBytes_length, hm]
  · decide

/-- C6 witness: the universally quantified part of the theorem instantiated
at the spec's concrete example message. -/
theorem price_feed_message_to_bytes_spec_witness :
    samplePriceFeedMessage.to_bytes.length = 85 :=
  (price_feed_message_to_bytes_spec.1 samplePriceFeedMessage (by decide)).1

/-- C7: `TwapMessage.to_bytes` always starts with discriminator byte 1, and
produces exactly 101 bytes — the 32-byte feed id, then cumulative_price,
cumulative_conf, num_down_slots, exponent, publish_time, prev_publish_time
and publish_slot, each big-endian at its natural width with no padding. -/
theorem twap_message_to_bytes_spec :
    (∀ m : TwapMessage, m.to_bytes.head? = some 1) ∧
    (∀ m : TwapMessage, m.feed_id.length = 32 →
      m.to_bytes.length = 101 ∧
      m.to_bytes = [1] ++ m.feed_id
        ++ beBytes 16 (toUnsigned 128 m.cumulative_price)
        ++ beBytes 16 m.cumulative_conf ++ beBytes 8 m.num_down_slots
        ++ beBytes 4 (toUnsigned 32 m.exponent)
        ++ beBytes 8 (toUnsigned 64 m.publish_time)
        ++ beBytes 8 (toUnsigned 64 m.prev_publish_time)
        ++ beBytes 8 m.publish_slot) := by
  constructor
  · intro m
    simp [TwapMessage.to_bytes]
  · intro m hm
    refine ⟨?_, rfl⟩
    simp [TwapMessage.to_bytes, beBytes_length, hm]

/-- C7 witness: instantiation at a concrete message. -/
theorem twap_message_to_bytes_spec_witness :
    sampleTwapMessage.to_bytes.length = 101 ∧
    sampleTwapMessage.to_bytes.head? = some 1 :=
  ⟨(twap_message_to_bytes_spec.2 sampleTwapMessage (by decide)).1,
   twap_message_to_bytes_spec.1 sampleTwapMessage⟩

/-- C8: for a stake-caps message with `n` caps (each with a 32-byte key),
`to_bytes` has length exactly `11 + 40 * n`: discriminator byte 2, the
big-endian `i64` publish time, a big-endian `u16` count equal to
`min n 65535` — i.e. `n` itself when `n ≤ 65535` and saturated to `65535`
when `n > 65535` — followed by all `n` entries (32-byte key, then the
big-endian `u64` cap), so an overlong list undercounts in the prefix while
every entry is still appended. -/
theorem stake_caps_to_bytes_spec (m : PublisherStakeCapsMessage)
    (h : ∀ c ∈ m.caps, c.publisher.length = 32) :
    m.to_bytes.length = 11 + 40 * m.caps.length ∧
    m.to_bytes = [2] ++ beBytes 8 (toUnsigned 64 m.publish_time)
      ++ beBytes 2 (min m.caps.length 65535)
      ++ m.caps.flatMap (fun c => c.publisher ++ beBytes 8 c.cap) := by
  refine ⟨?_, rfl⟩
  simp only [PublisherStakeCapsMessage.to_bytes, List.length_append,
    beBytes_length, capsEntries_length m.caps h, List.length_singleton]

/-- C8 witness: the theorem instantiated at a concrete one-entry message. -/
theorem stake_caps_to_bytes_spec_witness :
    sampleStakeCapsMessage.to_bytes.length =
      11 + 40 * sampleStakeCapsMessage.caps.length :=
  (stake_caps_to_bytes_spec sampleStakeCapsMessage (by decide)).1

/-! ### Sequences of fold-in calls -/

/-- The arguments of one `PriceCumulative.update` call. -/
structure FoldInput where
  price : Int
  conf : Nat
  slot_gap : Nat
  max_latency : Nat

/-- Repeated fold-in: `PriceCumulative.update` applied over a call
sequence. -/
def foldCumulative (c : PriceCumulative) (l : List FoldInput) :
    PriceCumulative :=
  l.foldl (fun acc i => acc.update i.price i.conf i.slot_gap i.max_latency) c

/-- Total of all slot gaps of a call sequence. -/
def sumGaps (l : List FoldInput) : Nat :=
  (l.map fun i => i.slot_gap).sum

/-- The direct mathematical sum `Σ price_i * gap_i`. -/
def priceSum (l : List FoldInput) : Int :=
  (l.map fun i => i.price * (i.slot_gap : Int)).sum

/-- The direct mathematical sum `Σ conf_i * gap_i`. -/
def confSum (l : List FoldInput) : Nat :=
  (l.map fun i => i.conf * i.slot_gap).sum

/-- The direct mathematical sum `Σ (gap_i − latency_i)` with the saturating
subtraction and latency fallback of the code. -/
def downSum (l : List FoldInput) : Nat :=
  (l.map fun i =>
    i.slot_gap - (if i.max_latency = 0 then PC_MAX_SEND_LATENCY else i.max_latency)).sum

theorem downSum_le_sumGaps (l : List FoldInput) : downSum l ≤ sumGaps l := by
  induction l with
  | nil => simp [downSum, sumGaps]
  | cons i t ih =>
    simp only [downSum, sumGaps, List.map_cons, List.sum_cons] at *
    exact Nat.add_le_add (Nat.sub_le _ _) ih

theorem confSum_le (l : List FoldInput)
    (hb : ∀ i ∈ l, i.conf < 2 ^ 64) :
    confSum l ≤ (2 ^ 64 - 1) * sumGaps l := by
  induction l with
  | nil => simp [confSum, sumGaps]
  | cons i t ih =>
    have hi : i.conf ≤ 2 ^ 64 - 1 := Nat.le_sub_one_of_lt (hb i (by simp))
    have ht : confSum t ≤ (2 ^ 64 - 1) * sumGaps t :=
      ih fun x hx => hb x (by simp [hx])
    simp only [confSum, sumGaps, List.map_cons, List.sum_cons] at *
    calc i.conf * i.slot_gap + (t.map fun x => x.conf * x.slot_gap).sum
        ≤ (2 ^ 64 - 1) * i.slot_gap + (2 ^ 64 - 1) * (t.map fun x => x.slot_gap).sum :=
          Nat.add_le_add (Nat.mul_le_mul_right _ hi) ht
      _ = (2 ^ 64 - 1) * (i.slot_gap + (t.map fun x => x.slot_gap).sum) := by ring

theorem priceSum_bounds (l : List FoldInput)
    (hb : ∀ i ∈ l, -(2 ^ 63) ≤ i.price ∧ i.price < 2 ^ 63) :
    -(2 ^ 63) * (sumGaps l : Int) ≤ priceSum l ∧
    priceSum l ≤ 2 ^ 63 * (sumGaps l : Int) := by
  induction l with
  | nil => simp [priceSum, sumGaps]
  | cons i t ih =>
    obtain ⟨hi1, hi2⟩ := hb i (by simp)
    obtain ⟨ht1, ht2⟩ := ih fun x hx => hb x (by simp [hx])
    have hg0 : (0 : Int) ≤ (i.slot_gap : Int) := Int.natCast_nonneg _
    have h1 : -(2 ^ 63) * (i.slot_gap : Int) ≤ i.price * (i.slot_gap : Int) :=
      mul_le_mul_of_nonneg_right hi1 hg0
    have h2 : i.price * (i.slot_gap : Int) ≤ 2 ^ 63 * (i.slot_gap : Int) :=
      mul_le_mul_of_nonneg_right (le_of_lt hi2) hg0
    simp only [priceSum, sumGaps, List.map_cons, List.sum_cons] at *
    constructor
    · push_cast
      push_cast at ht1
      nlinarith [h1, ht1]
    · push_cast
      push_cast at ht2
      nlinarith [h2, ht2]

/-- Core invariant: starting from an accumulator state bounded by a slot
budget `B`, a call sequence whose gap total keeps `B + sumGaps l` below
`2 ^ 64` is computed exactly — no addition in any `update` call wraps. -/
theorem foldCumulative_exact (l : List FoldInput) (c : PriceCumulative) (B : Nat)
    (hb : ∀ i ∈ l, -(2 ^ 63) ≤ i.price ∧ i.price < 2 ^ 63 ∧ i.conf < 2 ^ 64)
    (hB : B + sumGaps l < 2 ^ 64)
    (hc1 : -(2 ^ 63) * (B : Int) ≤ c.price) (hc2 : c.price ≤ 2 ^ 63 * (B : Int))
    (hc3 : c.conf ≤ (2 ^ 64 - 1) * B) (hc4 : c.num_down_slots ≤ B) :
    foldCumulative c l =
      ⟨c.price + priceSum l, c.conf + confSum l,
       c.num_down_slots + downSum l, c.unused⟩ := by
  induction l generalizing c B with
  | nil => simp [foldCumulative, priceSum, confSum, downSum]
  | cons i t ih =>
    obtain ⟨hi1, hi2, hi3⟩ := hb i (by simp)
    have hsum : i.slot_gap + sumGaps t = sumGaps (i :: t) := by
      simp [sumGaps]
    have hgt : B + i.slot_gap + sumGaps t < 2 ^ 64 := by
      rw [Nat.add_assoc, hsum]
      exact hB
    have hg : i.slot_gap < 2 ^ 64 := by omega
    have hg0 : (0 : Int) ≤ (i.slot_gap : Int) := Int.natCast_nonneg _
    have hBg : ((B : Int) + (i.slot_gap : Int)) ≤ 2 ^ 64 - 1 := by
      have : B + i.slot_gap ≤ 2 ^ 64 - 1 := by omega
      push_cast
      exact_mod_cast this
    have hmul1 : -(2 ^ 63) * (i.slot_gap : Int) ≤ i.price * (i.slot_gap : Int) :=
      mul_le_mul_of_nonneg_right hi1 hg0
    have hmul2 : i.price * (i.slot_gap : Int) ≤ 2 ^ 63 * (i.slot_gap : Int) :=
      mul_le_mul_of_nonneg_right (le_of_lt hi2) hg0
    have hlow : -(2 ^ 127) ≤ c.price + i.price * (i.slot_gap : Int) := by
      nlinarith [hc1, hmul1, hBg, hg0, Int.natCast_nonneg B]
    have hhigh : c.price + i.price * (i.slot_gap : Int) < 2 ^ 127 := by
      nlinarith [hc2, hmul2, hBg, hg0, Int.natCast_nonneg B]
    have hstep : c.update i.price i.conf i.slot_gap i.max_latency =
        ⟨c.price + i.price * (i.slot_gap : Int),
         c.conf + i.conf * i.slot_gap,
         c.num_down_slots +
           (i.slot_gap - (if i.max_latency = 0 then PC_MAX_SEND_LATENCY else i.max_latency)),
         c.unused⟩ := by
      rw [PriceCumulative.update_eq c i.price i.conf i.slot_gap i.max_latency
        hi1 hi2 hi3 hg]
      have hcl : c.conf + i.conf * i.slot_gap < 2 ^ 128 := by
        have h1 : i.conf * i.slot_gap ≤ (2 ^ 64 - 1) * i.slot_gap :=
          Nat.mul_le_mul_right _ (Nat.le_sub_one_of_lt hi3)
        have h2 : c.conf + i.conf * i.slot_gap ≤ (2 ^ 64 - 1) * (B + i.slot_gap) := by
          calc c.conf + i.conf * i.slot_gap
              ≤ (2 ^ 64 - 1) * B + (2 ^ 64 - 1) * i.slot_gap := Nat.add_le_add hc3 h1
            _ = (2 ^ 64 - 1) * (B + i.slot_gap) := by ring
        have h3 : (2 ^ 64 - 1) * (B + i.slot_gap) ≤ (2 ^ 64 - 1) * (2 ^ 64 - 1) :=
          Nat.mul_le_mul_left _ (by omega)
        calc c.conf + i.conf * i.slot_gap ≤ (2 ^ 64 - 1) * (2 ^ 64 - 1) :=
            le_trans h2 h3
          _ < 2 ^ 128 := by norm_num
      have hnl : c.num_down_slots +
          (i.slot_gap - (if i.max_latency = 0 then PC_MAX_SEND_LATENCY else i.max_latency)) <
          2 ^ 64 := by
        have := Nat.sub_le i.slot_gap
          (if i.max_latency = 0 then PC_MAX_SEND_LATENCY else i.max_latency)
        omega
      rw [i128wrap_eq_self hlow hhigh, Nat.mod_eq_of_lt hcl, Nat.mod_eq_of_lt hnl]
    have hfold : foldCumulative c (i :: t) =
        foldCumulative (c.update i.price i.conf i.slot_gap i.max_latency) t := by
      simp [foldCumulative]
    rw [hfold, hstep]
    have hrec := ih (fun x hx => hb x (by simp [hx]))
      (c := ⟨c.price + i.price * (i.slot_gap : Int),
             c.conf + i.conf * i.slot_gap,
             c.num_down_slots +
               (i.slot_gap - (if i.max_latency = 0 then PC_MAX_SEND_LATENCY else i.max_latency)),
             c.unused⟩)
      (B := B + i.slot_gap)
      (by simpa [Nat.add_assoc, hsum] using hgt)
      (by push_cast; nlinarith [hc1, hmul1])
      (by push_cast; nlinarith [hc2, hmul2])
      (by
        have h1 : i.conf * i.slot_gap ≤ (2 ^ 64 - 1) * i.slot_gap :=
          Nat.mul_le_mul_right _ (Nat.le_sub_one_of_lt hi3)
        calc c.conf + i.conf * i.slot_gap
            ≤ (2 ^ 64 - 1) * B + (2 ^ 64 - 1) * i.slot_gap := Nat.add_le_add hc3 h1
          _ = (2 ^ 64 - 1) * (B + i.slot_gap) := by ring)
      (by
        dsimp only
        have := Nat.sub_le i.slot_gap
          (if i.max_latency = 0 then PC_MAX_SEND_LATENCY else i.max_latency)
        omega)
    rw [hrec]
    simp only [priceSum, confSum, downSum, List.map_cons, List.sum_cons,
      PriceCumulative.mk.injEq]
    refine ⟨by ring, by omega, by omega, trivial⟩

/-- C5: for every sequence of fold-in calls with `i64`-bounded prices,
`u64`-bounded confidences and a slot-gap total below `2 ^ 64`, repeated
`PriceCumulative.update` from the zero state computes exactly the direct
mathematical sums — no addition wraps the `i128` price accumulator or the
`u128` conf accumulator — and the resulting sums lie strictly inside the
`i128`/`u128` ranges. -/
theorem cumulative_no_overflow (l : List FoldInput)
    (hb : ∀ i ∈ l, -(2 ^ 63) ≤ i.price ∧ i.price < 2 ^ 63 ∧ i.conf < 2 ^ 64)
    (hg : sumGaps l < 2 ^ 64) :
    foldCumulative PriceCumulative.zero l =
      ⟨priceSum l, confSum l, downSum l, 0⟩ ∧
    -(2 ^ 127) < priceSum l ∧ priceSum l < 2 ^ 127 ∧
    confSum l < 2 ^ 128 ∧ downSum l < 2 ^ 64 := by
  have hfold := foldCumulative_exact l PriceCumulative.zero 0 hb
    (by simpa using hg)
    (by simp [PriceCumulative.zero]) (by simp [PriceCumulative.zero])
    (by simp [PriceCumulative.zero]) (by simp [PriceCumulative.zero])
  have hps := priceSum_bounds l fun i hi => ⟨(hb i hi).1, (hb i hi).2.1⟩
  have hcs := confSum_le l fun i hi => (hb i hi).2.2
  have hds := downSum_le_sumGaps l
  have hgi : ((sumGaps l : Nat) : Int) ≤ 2 ^ 64 - 1 := by
    have h : ((sumGaps l : Nat) : Int) < 2 ^ 64 := by exact_mod_cast hg
    linarith
  have hgi0 : (0 : Int) ≤ ((sumGaps l : Nat) : Int) := Int.natCast_nonneg _
  refine ⟨by simpa [PriceCumulative.zero] using hfold, ?_, ?_, ?_, ?_⟩
  · nlinarith [hps.1, hgi, hgi0]
  · nlinarith [hps.2, hgi, hgi0]
  · have h1 : (2 ^ 64 - 1) * sumGaps l ≤ (2 ^ 64 - 1) * (2 ^ 64 - 1) :=
      Nat.mul_le_mul_left _ (by omega)
    have h2 : ((2 : Nat) ^ 64 - 1) * (2 ^ 64 - 1) < 2 ^ 128 := by norm_num
    omega
  · omega

/-- C5 witness: the theorem instantiated at a concrete two-call sequence. -/
theorem cumulative_no_overflow_witness :
    foldCumulative PriceCumulative.zero
        [⟨100, 5, 10, 0⟩, ⟨-3, 2, 4, 25⟩] =
      ⟨priceSum [⟨100, 5, 10, 0⟩, ⟨-3, 2, 4, 25⟩],
       confSum [⟨100, 5, 10, 0⟩, ⟨-3, 2, 4, 25⟩],
       downSum [⟨100, 5, 10, 0⟩, ⟨-3, 2, 4, 25⟩], 0⟩ ∧
    -(2 ^ 127) < priceSum [⟨100, 5, 10, 0⟩, ⟨-3, 2, 4, 25⟩] ∧
    priceSum [⟨100, 5, 10, 0⟩, ⟨-3, 2, 4, 25⟩] < 2 ^ 127 ∧
    confSum [⟨100, 5, 10, 0⟩, ⟨-3, 2, 4, 25⟩] < 2 ^ 128 ∧
    downSum [⟨100, 5, 10, 0⟩, ⟨-3, 2, 4, 25⟩] < 2 ^ 64 :=
  cumulative_no_overflow [⟨100, 5, 10, 0⟩, ⟨-3, 2, 4, 25⟩]
    (by decide) (by decide)

/-- C10 counterexample: folding in a negative price strictly decreases the
`price` accumulator — the cumulative price is a signed sum, so the block is
not componentwise monotone as claimed. -/
theorem price_cumulative_monotone_counterexample :
    ¬ PriceCumulative.zero.price ≤
        (PriceCumulative.zero.update (-1) 0 1 0).price := by
  decide

/-- C10 (amended): for every call to `PriceCumulative.update` with
machine-range inputs and non-wrapping `conf`/`num_down_slots` additions
(which C5 shows hold in every reachable state), `conf` and `num_down_slots`
never decrease — including calls folding in a negative price; and `price`
never decreases whenever the folded price is nonnegative and its `i128`
addition does not overflow — a negative price can decrease the signed price
accumulator. -/
theorem price_cumulative_update_monotone (c : PriceCumulative) (p : Int)
    (cf g ml : Nat) (hp1 : -(2 ^ 63) ≤ p) (hp2 : p < 2 ^ 63) (hcf : cf < 2 ^ 64)
    (hg : g < 2 ^ 64) (hc1 : -(2 ^ 127) ≤ c.price)
    (hc3 : c.conf + cf * g < 2 ^ 128) (hc4 : c.num_down_slots + g < 2 ^ 64) :
    c.conf ≤ (c.update p cf g ml).conf ∧
    c.num_down_slots ≤ (c.update p cf g ml).num_down_slots ∧
    (0 ≤ p → c.price + p * (g : Int) < 2 ^ 127 →
      c.price ≤ (c.update p cf g ml).price) := by
  rw [PriceCumulative.update_eq c p cf g ml hp1 hp2 hcf hg]
  have hnl : c.num_down_slots +
      (g - (if ml = 0 then PC_MAX_SEND_LATENCY else ml)) < 2 ^ 64 := by
    have := Nat.sub_le g (if ml = 0 then PC_MAX_SEND_LATENCY else ml)
    omega
  refine ⟨?_, ?_, ?_⟩
  · show c.conf ≤ (c.conf + cf * g) % 2 ^ 128
    rw [Nat.mod_eq_of_lt hc3]
    exact Nat.le_add_right _ _
  · show c.num_down_slots ≤
      (c.num_down_slots + (g - (if ml = 0 then PC_MAX_SEND_LATENCY else ml))) % 2 ^ 64
    rw [Nat.mod_eq_of_lt hnl]
    exact Nat.le_add_right _ _
  · intro hp0 hc2
    show c.price ≤ i128wrap (c.price + p * (g : Int))
    have hpg : 0 ≤ p * (g : Int) := mul_nonneg hp0 (Int.natCast_nonneg g)
    have hlow : -(2 ^ 127) ≤ c.price + p * (g : Int) := by linarith
    rw [i128wrap_eq_self hlow hc2]
    linarith

/-- C10 witness: the amended theorem instantiated at two concrete calls —
one folding in the negative price `-2` (the unsigned components still do not
decrease) and one folding in the nonnegative price `2` (the price
accumulator does not decrease either). -/
theorem price_cumulative_update_monotone_witness :
    ((⟨5, 5, 5, 0⟩ : PriceCumulative).conf ≤
        ((⟨5, 5, 5, 0⟩ : PriceCumulative).update (-2) 3 4 0).conf ∧
      (⟨5, 5, 5, 0⟩ : PriceCumulative).num_down_slots ≤
        ((⟨5, 5, 5, 0⟩ : PriceCumulative).update (-2) 3 4 0).num_down_slots) ∧
    (⟨5, 5, 5, 0⟩ : PriceCumulative).price ≤
      ((⟨5, 5, 5, 0⟩ : PriceCumulative).update 2 3 4 0).price :=
  ⟨⟨(price_cumulative_update_monotone ⟨5, 5, 5, 0⟩ (-2) 3 4 0 (by decide)
      (by decide) (by decide) (by decide) (by decide) (by decide) (by decide)).1,
    (price_cumulative_update_monotone ⟨5, 5, 5, 0⟩ (-2) 3 4 0 (by decide)
      (by decide) (by decide) (by decide) (by decide) (by decide) (by decide)).2.1⟩,
   (price_cumulative_update_monotone ⟨5, 5, 5, 0⟩ 2 3 4 0 (by decide)
      (by decide) (by decide) (by decide) (by decide) (by decide) (by decide)).2.2
     (by decide) (by decide)⟩

end PythPrice
